import Mathlib

/-!
Verification of the depsmanager backend (Go) against its specification.

The development shallowly embeds the parts of the source that the verified
claims are about:

* `pkg/diff/diff.go` — the dependency diff engine (`DiffDependencies`,
  `equalDep`, `floatEq`);
* `service/service.go` — the ingestion orchestrator
  (`FetchAndStoreProjectDependencies` and its helper loops);
* `storage/storage.go` — the SQLite persistence layer
  (`StoreDependencies`, `UpdateProject`, `AddDependency`,
  `GetProjectsByDependency`, `GetDependenciesByExactScore`).

Modelling conventions:

* Go `float64` scores are modelled as `ℚ`.  The claims under scrutiny are
  about the structure of the algorithms (which comparisons are made and with
  which tolerance), not about binary floating-point rounding, and every
  constant involved (`1e-9`, the test scores) is exactly representable in `ℚ`.
* `time.Time` values are modelled by their `Unix()` value together with the
  `IsZero()` flag, which is all the source ever inspects.
* Go maps used by the source (`map[string]Dependency`, `map[string][]string`,
  `map[string]struct{}`) are modelled by association lists with the same
  last-write-wins / append semantics; Go map iteration order is arbitrary, and
  no theorem below depends on the iteration order of those maps.
* The SQLite database is a record of a `projects` table and a `dependency`
  table.  Each SQL statement is a function on a transaction-local copy of the
  database; a statement may also fail, which is driven by an explicit failure
  oracle `fail : Nat → Bool` (statement k of the operation fails iff
  `fail k = true`); a UNIQUE-constraint violation of a plain `INSERT` is a
  statement error (SQLite reports `SQLITE_CONSTRAINT` as an error from
  `Exec`, not as zero affected rows).  `COMMIT` publishes the transaction
  copy; every error path of the Go code rolls the transaction back, which the
  embedding renders by returning the database as it was at entry.
* Errors are modelled by `DMErr`: the three sentinel errors of
  `depsmanager.go` plus `sqlError` for driver/statement failures.  The Go
  code only ever wraps errors with `fmt.Errorf("...: %w", err)`, which
  preserves `errors.Is` identity, so wrapping is not modelled.
-/

namespace Depsmanager

/- The core rational arithmetic operations are `irreducible` by default,
which keeps `decide` from evaluating concrete score comparisons; the
development only ever uses them on concrete values through `decide`. -/
attribute [local semireducible] Rat.sub Rat.add Rat.mul Rat.inv

/-- Absolute tolerance used by the diff engine and the score lookup
(`const eps = 1e-9` in `diff.go` and in `GetDependenciesByExactScore`). -/
def eps : ℚ := 1 / 1000000000

/-- `depsmanager.Dependency` (the `ProjectID` field is never read by the code
under verification and is omitted). -/
structure Dependency where
  name : String
  score : ℚ
  updatedAt : Int
  deriving DecidableEq, Repr

/-- `depsmanager.Project`. -/
structure Project where
  name : String
  version : String
  updatedAt : Int
  deriving DecidableEq, Repr

/-- `depsmanager.ProjectDependencyRecord`. -/
structure ProjectDependencyRecord where
  project : Project
  dependencies : List Dependency
  deriving DecidableEq, Repr

/-- The error taxonomy the claims distinguish: the three sentinel errors of
`depsmanager.go` (`ErrProjectNotFound`, `ErrDependencyNotFound`,
`ErrDependencyAlreadyExists`) plus `sqlError` for any driver or statement
failure (including UNIQUE-constraint violations reported by `Exec`).
`fmt.Errorf("...: %w", err)` wrapping preserves `errors.Is` identity and is
therefore not modelled. -/
inductive DMErr where
  | projectNotFound
  | dependencyNotFound
  | dependencyAlreadyExists
  | sqlError
  deriving DecidableEq, Repr

/-! ## Diff engine (`pkg/diff/diff.go`) -/

/-- `floatEq` from `diff.go`: `math.Abs(a-b) <= eps` with `eps = 1e-9`. -/
def floatEq (a b : ℚ) : Bool :=
  decide (|a - b| ≤ eps)

/-- `equalDep` from `diff.go`. -/
def equalDep (a b : Dependency) : Bool :=
  a.name = b.name && floatEq a.score b.score && a.updatedAt = b.updatedAt

/-- Lookup in a Go `map[string]Dependency` that was built by inserting the
elements of `l` left to right keyed by name: later writes overwrite earlier
ones, so the lookup returns the last element of `l` carrying the name. -/
def mapGet (l : List Dependency) (n : String) : Option Dependency :=
  match l with
  | [] => none
  | d :: rest =>
    match mapGet rest n with
    | some x => some x
    | none => if d.name = n then some d else none

/-- `DiffDependencies` from `diff.go`: build the name-keyed map of each side,
then keep, in input order, every element of one side whose name is missing
from the other side's map or whose map entry is not `equalDep`-equal. -/
def DiffDependencies (a b : List Dependency) : List Dependency × List Dependency :=
  (a.filter fun d =>
      match mapGet b d.name with
      | none => true
      | some x => !equalDep d x,
   b.filter fun d =>
      match mapGet a d.name with
      | none => true
      | some x => !equalDep d x)

/-! ## Ingestion orchestrator (`service/service.go`,
`FetchAndStoreProjectDependencies`) -/

/-- The `versionKey` of a node of `DepsProjectDependenciesResp`. -/
structure VersionKey where
  system : String
  name : String
  version : String
  deriving DecidableEq, Repr

/-- A node of `DepsProjectDependenciesResp.Nodes`. -/
structure DepNode where
  versionKey : VersionKey
  relation : String
  deriving DecidableEq, Repr

/-- `depsmanager.ProjectDependencies` — the (system, name, version) triple
handed to the batch resolver. -/
structure ProjectDependencies where
  system : String
  name : String
  version : String
  deriving DecidableEq, Repr

/-- An element of a `relatedProjects` list: project key id plus relation
type. -/
structure RelatedProject where
  projectID : String
  relationType : String
  deriving DecidableEq, Repr

/-- One entry of `DepsGetVersionsBatchResp.Responses`
(`b.Version.VersionKey.Name` and `b.Version.RelatedProjects`). -/
structure BatchRespEntry where
  name : String
  relatedProjects : List RelatedProject
  deriving DecidableEq, Repr

/-- A `time.Time` as the source observes it: its `Unix()` value and its
`IsZero()` flag. -/
structure ScorecardDate where
  unix : Int
  isZero : Bool
  deriving DecidableEq, Repr

/-- The scorecard of a `DepsGetProjectBatchResp` entry. -/
structure Scorecard where
  date : ScorecardDate
  overallScore : ℚ
  deriving DecidableEq, Repr

/-- One entry of `DepsGetProjectBatchResp.Responses`
(`pBatch.Project.ProjectKey.ID` and `pBatch.Project.Scorecard`). -/
structure ProjBatchEntry where
  projectID : String
  scorecard : Scorecard
  deriving DecidableEq, Repr

/-- Step 1 loop of `FetchAndStoreProjectDependencies`: skip `"SELF"` nodes,
deduplicate the rest via the `seen` set keyed by the string concatenation
`deps.VersionKey.System + deps.VersionKey.Name`, keep the first occurrence
(with its version) of each key.  `seen` is the accumulated key set. -/
def candidatesLoop : List DepNode → List String → List ProjectDependencies
  | [], _ => []
  | n :: rest, seen =>
    if n.relation = "SELF" then candidatesLoop rest seen
    else
      let key := n.versionKey.system ++ n.versionKey.name
      if key ∈ seen then candidatesLoop rest seen
      else ⟨n.versionKey.system, n.versionKey.name, n.versionKey.version⟩ ::
        candidatesLoop rest (key :: seen)

/-- The candidate list handed to `GetVersionsBatch` (the
`projectDependencies` slice of the source, built from an empty `seen` set). -/
def projectDependenciesOf (nodes : List DepNode) : List ProjectDependencies :=
  candidatesLoop nodes []

/-- Step 3 inner loop: scan a `relatedProjects` list in order and return the
project key id of the first entry whose `RelationType` is `"SOURCE_REPO"`
(the `break` in the source stops the scan at that entry). -/
def findSourceRepo : List RelatedProject → Option String
  | [] => none
  | r :: rest =>
    if r.relationType = "SOURCE_REPO" then some r.projectID
    else findSourceRepo rest

/-- `deps[k] = append(deps[k], v)` on a Go `map[string][]string` modelled as
an association list with insertion-ordered keys. -/
def assocAppend (m : List (String × List String)) (k v : String) :
    List (String × List String) :=
  match m with
  | [] => [(k, [v])]
  | (k', vs) :: rest =>
    if k' = k then (k', vs ++ [v]) :: rest
    else (k', vs) :: assocAppend rest k v

/-- The per-response body of the step 3 loop: if the response has a first
`SOURCE_REPO` related project, record its repository id against the
response's dependency name; otherwise leave the map unchanged. -/
def buildDepsStep (m : List (String × List String)) (b : BatchRespEntry) :
    List (String × List String) :=
  match findSourceRepo b.relatedProjects with
  | some id => assocAppend m id b.name
  | none => m

/-- Step 3 of the pipeline: the `deps` map from repository id to the
dependency names that resolve to it. -/
def buildDeps (responses : List BatchRespEntry) : List (String × List String) :=
  responses.foldl buildDepsStep []

/-- Step 5 loop: for each `GetProjectsBatch` response, find the `deps` map
entry with the matching repository id (map keys are unique, and the source
breaks out of the scan after the match) and emit one `Dependency` per name
recorded there, carrying the response's overall score and its scorecard date
as a Unix timestamp — or `0` when the date `IsZero()`. -/
def scoresLoop : List ProjBatchEntry → List (String × List String) → List Dependency
  | [], _ => []
  | p :: rest, deps =>
    (match deps.find? fun kv => p.projectID = kv.1 with
     | some kv =>
       kv.2.map fun n =>
         { name := n
           score := p.scorecard.overallScore
           updatedAt := if p.scorecard.date.isZero then 0 else p.scorecard.date.unix }
     | none => []) ++ scoresLoop rest deps

/-- `FetchAndStoreProjectDependencies`, with the three remote responses the
pipeline consumes supplied as `Except`-valued inputs (a client error aborts
the pipeline at the corresponding stage) and the stored record returned in
place of the `StoreDependencies` call.  `now` is the orchestrator's
`s.tNow().Unix()` capture. -/
def fetchAndStore (graph : Except DMErr (List DepNode))
    (batch : Except DMErr (List BatchRespEntry))
    (projBatch : Except DMErr (List ProjBatchEntry))
    (projectName version : String) (now : Int) :
    Except DMErr ProjectDependencyRecord :=
  match graph with
  | .error e => .error e
  | .ok nodes =>
    let pds := projectDependenciesOf nodes
    if pds.isEmpty then .ok ⟨⟨projectName, version, now⟩, []⟩
    else
      match batch with
      | .error e => .error e
      | .ok responses =>
        let deps := buildDeps responses
        if deps.isEmpty then .ok ⟨⟨projectName, version, now⟩, []⟩
        else
          match projBatch with
          | .error e => .error e
          | .ok pbs => .ok ⟨⟨projectName, version, now⟩, scoresLoop pbs deps⟩

/-! ## Persistence layer (`storage/storage.go`)

The database is the pair of tables created by `createTable`.  An operation
takes a failure oracle `fail : Nat → Bool` deciding whether its k-th
failable database call (statement execution, query, commit, rollback) fails,
and returns the resulting durable database together with an optional error.
Statements run against a transaction-local copy; only `COMMIT` publishes the
copy, and every error path of the source rolls back, i.e. returns the
database the operation was entered with. -/

/-- A row of the `projects` table. -/
structure ProjRow where
  id : Nat
  name : String
  version : String
  updatedAt : Int
  deriving DecidableEq, Repr

/-- A row of the `dependency` table (its own autoincrement id is never read
by the code under verification and is omitted). -/
structure DepRow where
  projectId : Nat
  name : String
  score : ℚ
  updatedAt : Int
  deriving DecidableEq, Repr

/-- The database: the two tables plus the autoincrement counter of
`projects`. -/
structure DB where
  projects : List ProjRow
  deps : List DepRow
  nextProjectId : Nat
  deriving DecidableEq, Repr

/-- The referential integrity the schema enforces
(`FOREIGN KEY (project_id) REFERENCES projects(id)` with
`_foreign_keys=on`): every dependency row points at an existing project
row. -/
abbrev FKok (db : DB) : Prop :=
  ∀ r ∈ db.deps, ∃ p ∈ db.projects, p.id = r.projectId

/-- `SELECT id FROM projects WHERE name = ? AND version = ?`
(`getProjectID` / `getProjectIDTX`); `UNIQUE(name, version)` makes the row
unique when present. -/
def findProject (name version : String) (db : DB) : Option ProjRow :=
  db.projects.find? fun p => p.name = name && p.version = version

/-- Whether `(name, version)` is already present in `projects` — the
condition under which `INSERT OR IGNORE INTO projects` affects zero rows. -/
def projectExists (name version : String) (db : DB) : Bool :=
  db.projects.any fun p => p.name = name && p.version = version

/-- Whether `(project_id, dependency_name)` is already present — the
condition under which a plain `INSERT INTO dependency` violates
`UNIQUE(project_id, dependency_name)` and fails with a constraint error. -/
def depExists (pid : Nat) (name : String) (db : DB) : Bool :=
  db.deps.any fun r => r.projectId = pid && r.name = name

/-- Append a row to the `dependency` table. -/
def addDepRow (db : DB) (pid : Nat) (d : Dependency) : DB :=
  { db with deps := db.deps ++ [⟨pid, d.name, d.score, d.updatedAt⟩] }

/-- `INSERT OR IGNORE INTO projects(name, updated_at, version)`: returns the
affected row count, the `LastInsertId`, and the updated transaction state.
On a `UNIQUE(name, version)` conflict the statement is ignored (zero rows
affected). -/
def insertOrIgnoreProject (p : Project) (db : DB) : Nat × Nat × DB :=
  if projectExists p.name p.version db then (0, 0, db)
  else
    (1, db.nextProjectId,
     { db with
        projects := db.projects ++ [⟨db.nextProjectId, p.name, p.version, p.updatedAt⟩]
        nextProjectId := db.nextProjectId + 1 })

/-- The rows `SELECT dependency_name, score, updated_at FROM dependency
WHERE project_id = ?` scans into `currentDeps`. -/
def currentDepsOf (db : DB) (pid : Nat) : List Dependency :=
  (db.deps.filter fun r => r.projectId = pid).map fun r =>
    ⟨r.name, r.score, r.updatedAt⟩

/-- `UPDATE projects SET updated_at = ? WHERE id = ?`. -/
def setProjectUpdatedAt (db : DB) (pid : Nat) (t : Int) : DB :=
  { db with
      projects := db.projects.map fun p =>
        if p.id = pid then { p with updatedAt := t } else p }

/-- The per-dependency `INSERT INTO dependency(project_id, dependency_name,
score, updated_at)` loop shared by `StoreDependencies` and `UpdateProject`:
statement `k + i` inserts the i-th dependency; a UNIQUE-constraint violation
is a statement error.  Returns the next statement index and the transaction
state. -/
def insertDepsLoop (fail : Nat → Bool) (k : Nat) (pid : Nat) :
    List Dependency → DB → Except DMErr (Nat × DB)
  | [], tx => .ok (k, tx)
  | d :: rest, tx =>
    if fail k then .error .sqlError
    else if depExists pid d.name tx then .error .sqlError
    else insertDepsLoop fail (k + 1) pid rest (addDepRow tx pid d)

/-- `deleteDependenciesFromProject`: one `DELETE FROM dependency WHERE
project_id = ? AND dependency_name = ?` per listed dependency. -/
def deleteDepsLoop (fail : Nat → Bool) (k : Nat) (pid : Nat) :
    List Dependency → DB → Except DMErr (Nat × DB)
  | [], tx => .ok (k, tx)
  | d :: rest, tx =>
    if fail k then .error .sqlError
    else
      deleteDepsLoop fail (k + 1) pid rest
        { tx with deps := tx.deps.filter fun r => !(r.projectId = pid && r.name = d.name) }

/-- `Storage.UpdateProject`, entered with its failable calls numbered from
`k`: resolve the project id (k), load the stored dependency set (k+1),
update the project timestamp (k+2), diff against the incoming set; when the
diff is empty on both sides commit (k+3) without touching dependency rows,
otherwise delete the "only in current" rows, insert the "only in incoming"
rows and commit. -/
def updateProject (fail : Nat → Bool) (k : Nat) (rec : ProjectDependencyRecord)
    (db : DB) : Option DMErr × DB :=
  if fail k then (some .sqlError, db)
  else
    match findProject rec.project.name rec.project.version db with
    | none => (some .projectNotFound, db)
    | some row =>
      if fail (k + 1) then (some .sqlError, db)
      else
        let currentDeps := currentDepsOf db row.id
        if fail (k + 2) then (some .sqlError, db)
        else
          let tx := setProjectUpdatedAt db row.id rec.project.updatedAt
          let pr := DiffDependencies currentDeps rec.dependencies
          if pr.2.isEmpty && pr.1.isEmpty then
            if fail (k + 3) then (some .sqlError, db) else (none, tx)
          else
            match deleteDepsLoop fail (k + 3) row.id pr.1 tx with
            | .error e => (some e, db)
            | .ok (k2, tx2) =>
              match insertDepsLoop fail k2 row.id pr.2 tx2 with
              | .error e => (some e, db)
              | .ok (k3, tx3) =>
                if fail k3 then (some .sqlError, db) else (none, tx3)

/-- `Storage.StoreDependencies` (the Reconcile operation): statement 0 is
the `INSERT OR IGNORE` of the project row.  If it affected no row the
project already exists: the transaction is rolled back (failable call 1) and
`UpdateProject` runs in a fresh transaction.  Otherwise every incoming
dependency is inserted (statements 1..n) and the transaction committed. -/
def storeDependencies (fail : Nat → Bool) (rec : ProjectDependencyRecord)
    (db : DB) : Option DMErr × DB :=
  if fail 0 then (some .sqlError, db)
  else
    match insertOrIgnoreProject rec.project db with
    | (0, _, _) =>
      if fail 1 then (some .sqlError, db)
      else updateProject fail 2 rec db
    | (_ + 1, id, tx) =>
      match insertDepsLoop fail 1 id rec.dependencies tx with
      | .error e => (some e, db)
      | .ok (k, tx2) =>
        if fail k then (some .sqlError, db) else (none, tx2)

/-- `Storage.AddDependency`: resolve the project id (failable call 0), run
the plain `INSERT INTO dependency` (statement 1) — on a duplicate
`(project_id, dependency_name)` the statement itself fails with a
UNIQUE-constraint error; on success it affected one row, so the source's
`RowsAffected() == 0` check (which would return
`ErrDependencyAlreadyExists`) cannot fire — then commit (call 2). -/
def addDependency (fail : Nat → Bool) (projectName version : String)
    (dep : Dependency) (db : DB) : Option DMErr × DB :=
  if fail 0 then (some .sqlError, db)
  else
    match findProject projectName version db with
    | none => (some .projectNotFound, db)
    | some row =>
      if fail 1 then (some .sqlError, db)
      else if depExists row.id dep.name db then (some .sqlError, db)
      else
        let aff : Nat := 1
        if aff = 0 then (some .dependencyAlreadyExists, db)
        else if fail 2 then (some .sqlError, db)
        else (none, addDepRow db row.id dep)

/-- `Storage.GetProjectsByDependency`: the join
`SELECT DISTINCT p.* FROM projects p JOIN dependency d ON d.project_id =
p.id WHERE d.dependency_name = ?`, rendered as the project rows having a
dependency row with the requested name (`DISTINCT` and `ORDER BY` only
affect presentation order, which no claim concerns).  An empty row set is
turned into `ErrProjectNotFound`. -/
def getProjectsByDependency (depName : String) (db : DB) :
    Except DMErr (List ProjRow) :=
  let rows := db.projects.filter fun p =>
    db.deps.any fun r => r.projectId = p.id && r.name = depName
  if rows.isEmpty then .error .projectNotFound else .ok rows

/-- `Storage.GetDependenciesByExactScore`: `SELECT DISTINCT dependency_name
FROM dependency WHERE score BETWEEN score-eps AND score+eps` with
`eps = 1e-9` (`ORDER BY` again only affects presentation order).  An empty
row set is returned as such, with no error. -/
def getDependenciesByExactScore (score : ℚ) (db : DB) :
    Except DMErr (List String) :=
  .ok (((db.deps.filter fun r =>
      decide (score - eps ≤ r.score) && decide (r.score ≤ score + eps)).map
        fun r => r.name).dedup)

/-- The oracle under which no database call fails. -/
def noFail : Nat → Bool := fun _ => false

/-- The oracle under which exactly the n-th failable database call fails. -/
def failAt (n : Nat) : Nat → Bool := fun k => k == n

/-! ## Lemmas about the diff engine -/

theorem equalDep_refl (d : Dependency) : equalDep d d = true := by
  unfold equalDep floatEq
  simp only [Bool.and_eq_true, decide_eq_true_eq, sub_self, abs_zero]
  refine ⟨⟨trivial, ?_⟩, trivial⟩
  unfold eps
  norm_num

theorem mapGet_eq_none_iff (l : List Dependency) (n : String) :
    mapGet l n = none ↔ ∀ x ∈ l, x.name ≠ n := by
  induction l with
  | nil => simp [mapGet]
  | cons d rest ih =>
    rw [mapGet]
    cases hr : mapGet rest n with
    | some x =>
      simp only [reduceCtorEq, false_iff]
      intro h
      have hall : ∀ y ∈ rest, y.name ≠ n := fun y hy => h y (List.mem_cons_of_mem _ hy)
      rw [ih.mpr hall] at hr
      cases hr
    | none =>
      constructor
      · intro h x hx
        rcases List.mem_cons.mp hx with rfl | hx'
        · intro hd
          rw [if_pos hd] at h
          cases h
        · exact ih.mp hr x hx'
      · intro h
        rw [if_neg (h d (List.mem_cons_self d rest))]

theorem mapGet_some (l : List Dependency) (n : String) (x : Dependency)
    (h : mapGet l n = some x) : x ∈ l ∧ x.name = n := by
  induction l with
  | nil => cases h
  | cons d rest ih =>
    rw [mapGet] at h
    cases hr : mapGet rest n with
    | some y =>
      rw [hr] at h
      cases h
      rcases ih hr with ⟨h1, h2⟩
      exact ⟨List.mem_cons_of_mem _ h1, h2⟩
    | none =>
      rw [hr] at h
      by_cases hd : d.name = n
      · rw [if_pos hd] at h
        cases h
        exact ⟨List.mem_cons_self _ _, hd⟩
      · rw [if_neg hd] at h
        cases h

theorem mapGet_of_nodup (l : List Dependency)
    (hl : (l.map Dependency.name).Nodup) (x : Dependency) (hx : x ∈ l) :
    mapGet l x.name = some x := by
  induction l with
  | nil => cases hx
  | cons d rest ih =>
    rw [List.map_cons, List.nodup_cons] at hl
    rcases List.mem_cons.mp hx with rfl | hx'
    · have hnone : mapGet rest x.name = none := by
        apply (mapGet_eq_none_iff rest x.name).mpr
        intro y hy hyx
        exact hl.1 (hyx ▸ List.mem_map_of_mem Dependency.name hy)
      rw [mapGet, hnone, if_pos rfl]
    · rw [mapGet, ih hl.2 hx']

/-- Membership in one "only" output of `DiffDependencies`, for a side whose
opposite list has pairwise-distinct names: a dependency of `a` is kept
exactly when `b` holds no entry of the same name that is `equalDep`-equal to
it. -/
theorem diff_only_iff (a b : List Dependency)
    (hb : (b.map Dependency.name).Nodup) (d : Dependency) :
    d ∈ (DiffDependencies a b).1 ↔
      d ∈ a ∧ ¬ ∃ x ∈ b, x.name = d.name ∧ equalDep d x = true := by
  unfold DiffDependencies
  rw [List.mem_filter]
  apply and_congr_right
  intro _
  cases hm : mapGet b d.name with
  | none =>
    simp only [hm, true_iff]
    rintro ⟨x, hx, hxn, _⟩
    exact (mapGet_eq_none_iff b d.name).mp hm x hx hxn
  | some x0 =>
    simp only [hm, Bool.not_eq_true']
    constructor
    · rintro hne ⟨x, hxb, hxn, hec⟩
      have hx := mapGet_of_nodup b hb x hxb
      rw [hxn, hm] at hx
      cases hx
      rw [hec] at hne
      cases hne
    · intro h
      rcases mapGet_some b d.name x0 hm with ⟨hx0b, hx0n⟩
      cases he : equalDep d x0 with
      | false => rfl
      | true => exact absurd ⟨x0, hx0b, hx0n, he⟩ h

/-- C2, counterexample to the claim as stated.  The claim quantifies over
every pair of dependency lists, but when the incoming side holds two entries
with the same name, `DiffDependencies` compares only against the last one
(the Go name-keyed map is built with last-write-wins).  Here `current`'s
entry `{x, 1.0, 100}` has an equal same-name entry in `incoming`, so by the
claim's rule it must not appear in "only in current" — yet the code places
it there because the later entry `{x, 2.0, 100}` overwrote the map slot. -/
theorem diff_membership_cex :
    (⟨"x", 1, 100⟩ : Dependency) ∈
      (DiffDependencies [⟨"x", 1, 100⟩] [⟨"x", 1, 100⟩, ⟨"x", 2, 100⟩]).1
    ∧ ∃ x ∈ ([⟨"x", 1, 100⟩, ⟨"x", 2, 100⟩] : List Dependency),
        x.name = (⟨"x", 1, 100⟩ : Dependency).name
        ∧ equalDep ⟨"x", 1, 100⟩ x = true := by
  constructor
  · decide
  · exact ⟨⟨"x", 1, 100⟩, by decide, rfl, by decide⟩

/-- C2 (amended): for lists whose dependency names are pairwise distinct
within each side — the name-keyed lists of the spec — `DiffDependencies`
places a dependency from one side in the corresponding "only" output exactly
when its name is absent on the other side or the same-name entry there is
not equal to it, where equality is `equalDep`: names match exactly, scores
differ by at most `1e-9` in absolute value, and `updatedAt` values match
exactly.  In particular a name present on both sides with scores outside the
tolerance appears in both outputs. -/
theorem diff_membership (a b : List Dependency)
    (ha : (a.map Dependency.name).Nodup) (hb : (b.map Dependency.name).Nodup)
    (d : Dependency) :
    (d ∈ (DiffDependencies a b).1 ↔
      d ∈ a ∧ ¬ ∃ x ∈ b, x.name = d.name ∧ equalDep d x = true)
    ∧ (d ∈ (DiffDependencies a b).2 ↔
      d ∈ b ∧ ¬ ∃ x ∈ a, x.name = d.name ∧ equalDep d x = true) :=
  ⟨diff_only_iff a b hb d, diff_only_iff b a ha d⟩

/-- Witness for `diff_membership` at the tolerance-boundary inputs of the
spec's §8: `{x, 1.0}` vs `{x, 1.00001}` differ by more than `1e-9`, so the
entry appears in both outputs. -/
theorem diff_membership_witness :
    (([⟨"x", 1, 100⟩] : List Dependency).map Dependency.name).Nodup
    ∧ (([⟨"x", 100001/100000, 100⟩] : List Dependency).map Dependency.name).Nodup
    ∧ ((⟨"x", 1, 100⟩ : Dependency) ∈
        (DiffDependencies [⟨"x", 1, 100⟩] [⟨"x", 100001/100000, 100⟩]).1 ↔
      (⟨"x", 1, 100⟩ : Dependency) ∈ ([⟨"x", 1, 100⟩] : List Dependency)
      ∧ ¬ ∃ x ∈ ([⟨"x", 100001/100000, 100⟩] : List Dependency),
          x.name = (⟨"x", 1, 100⟩ : Dependency).name
          ∧ equalDep ⟨"x", 1, 100⟩ x = true) :=
  ⟨by decide, by decide,
    (diff_membership [⟨"x", 1, 100⟩] [⟨"x", 100001/100000, 100⟩]
      (by decide) (by decide) ⟨"x", 1, 100⟩).1⟩

/-- C6, counterexample to the claim as stated: for a list holding two
same-name entries with scores further than the tolerance apart,
`DiffDependencies A A` is not a pair of empty lists — each side's earlier
entry is compared against the map slot that its later namesake overwrote. -/
theorem diff_self_cex :
    DiffDependencies [⟨"n", 1, 0⟩, ⟨"n", 2, 0⟩] [⟨"n", 1, 0⟩, ⟨"n", 2, 0⟩]
      ≠ ([], []) := by
  decide

/-- C6 (amended): for every dependency list `A` whose entries' names are
pairwise distinct, `DiffDependencies A A` returns two empty lists. -/
theorem diff_self_eq_nil (A : List Dependency)
    (h : (A.map Dependency.name).Nodup) :
    DiffDependencies A A = ([], []) := by
  have hnil : (A.filter fun d =>
      match mapGet A d.name with
      | none => true
      | some x => !equalDep d x) = [] := by
    rw [List.filter_eq_nil_iff]
    intro d hd
    rw [mapGet_of_nodup A h d hd]
    simp [equalDep_refl d]
  unfold DiffDependencies
  rw [hnil]

/-- Witness for `diff_self_eq_nil` at a concrete two-element list. -/
theorem diff_self_eq_nil_witness :
    (([⟨"a", 1, 10⟩, ⟨"b", 2, 20⟩] : List Dependency).map Dependency.name).Nodup
    ∧ DiffDependencies [⟨"a", 1, 10⟩, ⟨"b", 2, 20⟩] [⟨"a", 1, 10⟩, ⟨"b", 2, 20⟩]
        = ([], []) :=
  ⟨by decide, diff_self_eq_nil [⟨"a", 1, 10⟩, ⟨"b", 2, 20⟩] (by decide)⟩

/-! ## Theorems about the ingestion orchestrator -/

/-- C3: evaluation of the step 1 filter at a failing input.  The source
deduplicates by the key `deps.VersionKey.System + deps.VersionKey.Name`
(string concatenation, no separator), so the two non-self nodes
`(ecosystem "a", name "bc")` and `(ecosystem "ab", name "c")` — distinct
(ecosystem, name) pairs — collide on the key `"abc"` and are merged into a
single candidate, although the claim (and the spec's "deduplicated by the
pair (ecosystem, name)") requires one candidate per distinct pair, i.e. two
candidates here. -/
theorem dedup_key_collision :
    projectDependenciesOf
        [⟨⟨"a", "bc", "1.0"⟩, "DIRECT"⟩, ⟨⟨"ab", "c", "2.0"⟩, "DIRECT"⟩]
      = [⟨"a", "bc", "1.0"⟩]
    ∧ (("a", "bc") : String × String) ≠ ("ab", "c") := by
  exact ⟨by decide, by decide⟩

/-- A `findSourceRepo` scan returns the first `"SOURCE_REPO"` entry: any
entries after it — further `"SOURCE_REPO"` relations included — are never
reached. -/
theorem findSourceRepo_first (pre post : List RelatedProject)
    (r : RelatedProject) (hpre : ∀ x ∈ pre, x.relationType ≠ "SOURCE_REPO")
    (hr : r.relationType = "SOURCE_REPO") :
    findSourceRepo (pre ++ r :: post) = some r.projectID := by
  induction pre with
  | nil =>
    rw [List.nil_append, findSourceRepo, if_pos hr]
  | cons x rest ih =>
    rw [List.cons_append, findSourceRepo,
      if_neg (hpre x (List.mem_cons_self _ _))]
    exact ih fun y hy => hpre y (List.mem_cons_of_mem _ hy)

/-- C4: in step 3, for each batch response entry whose related-project list
is `pre ++ r :: post` with no `"SOURCE_REPO"` relation in `pre` and
`r.relationType = "SOURCE_REPO"`, the step maps the entry's dependency name
under `r`'s repository id — regardless of what `post` contains, so also when
`post` holds further `"SOURCE_REPO"` relations. -/
theorem first_source_repo_wins (m : List (String × List String))
    (b : BatchRespEntry) (pre post : List RelatedProject) (r : RelatedProject)
    (hsplit : b.relatedProjects = pre ++ r :: post)
    (hpre : ∀ x ∈ pre, x.relationType ≠ "SOURCE_REPO")
    (hr : r.relationType = "SOURCE_REPO") :
    findSourceRepo b.relatedProjects = some r.projectID
    ∧ buildDepsStep m b = assocAppend m r.projectID b.name := by
  have h1 : findSourceRepo b.relatedProjects = some r.projectID := by
    rw [hsplit]
    exact findSourceRepo_first pre post r hpre hr
  refine ⟨h1, ?_⟩
  unfold buildDepsStep
  rw [h1]

/-- Witness for `first_source_repo_wins`: the entry holds two
`"SOURCE_REPO"` relations (`"r1"` then `"r2"`) after a non-matching one; the
name `"a"` is mapped under `"r1"`. -/
theorem first_source_repo_wins_witness :
    ((⟨"a", [⟨"r0", "OTHER"⟩, ⟨"r1", "SOURCE_REPO"⟩, ⟨"r2", "SOURCE_REPO"⟩]⟩ :
        BatchRespEntry).relatedProjects
      = [⟨"r0", "OTHER"⟩] ++ ⟨"r1", "SOURCE_REPO"⟩ :: [⟨"r2", "SOURCE_REPO"⟩])
    ∧ (∀ x ∈ ([⟨"r0", "OTHER"⟩] : List RelatedProject),
        x.relationType ≠ "SOURCE_REPO")
    ∧ findSourceRepo (⟨"a", [⟨"r0", "OTHER"⟩, ⟨"r1", "SOURCE_REPO"⟩,
        ⟨"r2", "SOURCE_REPO"⟩]⟩ : BatchRespEntry).relatedProjects = some "r1"
    ∧ buildDepsStep []
        ⟨"a", [⟨"r0", "OTHER"⟩, ⟨"r1", "SOURCE_REPO"⟩, ⟨"r2", "SOURCE_REPO"⟩]⟩
      = assocAppend [] "r1" "a" :=
  ⟨by decide, by decide,
    (first_source_repo_wins []
      ⟨"a", [⟨"r0", "OTHER"⟩, ⟨"r1", "SOURCE_REPO"⟩, ⟨"r2", "SOURCE_REPO"⟩]⟩
      [⟨"r0", "OTHER"⟩] [⟨"r2", "SOURCE_REPO"⟩] ⟨"r1", "SOURCE_REPO"⟩
      (by decide) (by decide) (by decide)).1,
    (first_source_repo_wins []
      ⟨"a", [⟨"r0", "OTHER"⟩, ⟨"r1", "SOURCE_REPO"⟩, ⟨"r2", "SOURCE_REPO"⟩]⟩
      [⟨"r0", "OTHER"⟩] [⟨"r2", "SOURCE_REPO"⟩] ⟨"r1", "SOURCE_REPO"⟩
      (by decide) (by decide) (by decide)).2⟩

/-- C7: both terminal success paths of the pipeline.  When the step 1
filtering leaves no candidate, and likewise when no candidate resolves to a
source repository (the step 3 map is empty), the pipeline returns success
and hands the persistence layer the project identity with the orchestrator's
timestamp `now` and an empty dependency list. -/
theorem ingest_terminal_empty (nodes : List DepNode)
    (batch : Except DMErr (List BatchRespEntry))
    (responses : List BatchRespEntry)
    (projBatch : Except DMErr (List ProjBatchEntry))
    (projectName version : String) (now : Int) :
    (projectDependenciesOf nodes = [] →
      fetchAndStore (.ok nodes) batch projBatch projectName version now
        = .ok ⟨⟨projectName, version, now⟩, []⟩)
    ∧ (buildDeps responses = [] →
      fetchAndStore (.ok nodes) (.ok responses) projBatch projectName version now
        = .ok ⟨⟨projectName, version, now⟩, []⟩) := by
  constructor
  · intro h
    simp [fetchAndStore, h]
  · intro h
    by_cases hp : (projectDependenciesOf nodes).isEmpty
    · simp [fetchAndStore, hp]
    · simp [fetchAndStore, hp, h]

/-- Witness for `ingest_terminal_empty`: a graph holding only the `"SELF"`
node triggers the first terminal path; a batch response with no
`"SOURCE_REPO"` relation triggers the second. -/
theorem ingest_terminal_empty_witness :
    projectDependenciesOf [⟨⟨"npm", "p", "1.0.0"⟩, "SELF"⟩] = []
    ∧ fetchAndStore (.ok [⟨⟨"npm", "p", "1.0.0"⟩, "SELF"⟩]) (.ok []) (.ok [])
        "p" "1.0.0" 1700000000
      = .ok ⟨⟨"p", "1.0.0", 1700000000⟩, []⟩
    ∧ buildDeps [⟨"a", []⟩] = []
    ∧ fetchAndStore (.ok [⟨⟨"npm", "a", "1.0.0"⟩, "DIRECT"⟩])
        (.ok [⟨"a", []⟩]) (.ok []) "p" "1.0.0" 5
      = .ok ⟨⟨"p", "1.0.0", 5⟩, []⟩ :=
  ⟨by decide,
    (ingest_terminal_empty [⟨⟨"npm", "p", "1.0.0"⟩, "SELF"⟩] (.ok []) []
      (.ok []) "p" "1.0.0" 1700000000).1 (by decide),
    by decide,
    (ingest_terminal_empty [⟨⟨"npm", "a", "1.0.0"⟩, "DIRECT"⟩] (.ok [⟨"a", []⟩])
      [⟨"a", []⟩] (.ok []) "p" "1.0.0" 5).2 (by decide)⟩

/-- C9: every dependency emitted by the step 5 loop takes its `updatedAt`
from the scorecard of the batch response it was matched to: the scorecard
date's Unix value, except that a zero/unset date (`IsZero()`) yields exactly
`0`.  No other value — in particular no current time, which is not even an
input of this stage — can appear. -/
theorem scores_updatedAt_from_scorecard (pbs : List ProjBatchEntry)
    (deps : List (String × List String)) (d : Dependency)
    (hd : d ∈ scoresLoop pbs deps) :
    ∃ p ∈ pbs,
      d.updatedAt = (if p.scorecard.date.isZero then 0 else p.scorecard.date.unix)
      ∧ d.score = p.scorecard.overallScore := by
  induction pbs with
  | nil => cases hd
  | cons p rest ih =>
    rw [scoresLoop] at hd
    rcases List.mem_append.mp hd with hhd | hhd
    · refine ⟨p, List.mem_cons_self _ _, ?_⟩
      cases hf : deps.find? fun kv => p.projectID = kv.1 with
      | none => rw [hf] at hhd; cases hhd
      | some kv =>
        rw [hf] at hhd
        rcases List.mem_map.mp hhd with ⟨n, _, hn⟩
        rw [← hn]
        exact ⟨rfl, rfl⟩
    · rcases ih hhd with ⟨q, hq, hqd⟩
      exact ⟨q, List.mem_cons_of_mem _ hq, hqd⟩

/-- Witness for `scores_updatedAt_from_scorecard`: one response with a zero
date (its `Unix()` value would be the huge negative zero-time value, yet the
emitted `updatedAt` is `0`), applied to the first emitted dependency. -/
theorem scores_updatedAt_from_scorecard_witness :
    ((⟨"a", 7, 0⟩ : Dependency) ∈
      scoresLoop [⟨"r1", ⟨⟨-62135596800, true⟩, 7⟩⟩] [("r1", ["a"])])
    ∧ ∃ p ∈ ([⟨"r1", ⟨⟨-62135596800, true⟩, 7⟩⟩] : List ProjBatchEntry),
        (⟨"a", 7, 0⟩ : Dependency).updatedAt
          = (if p.scorecard.date.isZero then 0 else p.scorecard.date.unix)
        ∧ (⟨"a", 7, 0⟩ : Dependency).score = p.scorecard.overallScore :=
  ⟨by decide,
    scores_updatedAt_from_scorecard [⟨"r1", ⟨⟨-62135596800, true⟩, 7⟩⟩]
      [("r1", ["a"])] ⟨"a", 7, 0⟩ (by decide)⟩

/-! ## Theorems about the persistence layer -/

theorem updateProject_cases (fail : Nat → Bool) (k : Nat)
    (rec : ProjectDependencyRecord) (db : DB) :
    (updateProject fail k rec db).1.isSome = false
    ∨ (updateProject fail k rec db).2 = db := by
  simp only [updateProject]
  repeat' split
  all_goals simp

theorem storeDependencies_cases (fail : Nat → Bool)
    (rec : ProjectDependencyRecord) (db : DB) :
    (storeDependencies fail rec db).1.isSome = false
    ∨ (storeDependencies fail rec db).2 = db := by
  unfold storeDependencies
  split
  · simp
  · split
    · split
      · simp
      · exact updateProject_cases fail 2 rec db
    · split
      · simp
      · split <;> simp

/-- C1: per-call atomicity of the Reconcile operation.  Whatever record and
database `StoreDependencies` is called on, and whichever of its database
calls the failure oracle makes fail — on the fresh-insert path or on the
already-exists update/diff path — a call that returns an error leaves the
stored projects and dependency rows exactly as they were before the call:
every error path rolls back before anything is committed.  (On the
already-exists path the source uses two transactions — it rolls back the
`INSERT OR IGNORE` transaction, which affected no row, before `UpdateProject`
opens its own — but no partially written state can ever survive an error.) -/
theorem storeDependencies_atomic (fail : Nat → Bool)
    (rec : ProjectDependencyRecord) (db : DB)
    (h : (storeDependencies fail rec db).1.isSome = true) :
    (storeDependencies fail rec db).2 = db := by
  rcases storeDependencies_cases fail rec db with h' | h'
  · rw [h'] at h
    cases h
  · exact h'

/-- Witness for `storeDependencies_atomic`: the same call fails once on the
fresh-insert path (second dependency insert, statement 2) and once on the
update path (the commit after the diff application), and in both runs the
database is returned unchanged. -/
theorem storeDependencies_atomic_witness :
    ((storeDependencies (failAt 2)
        ⟨⟨"react", "18.3.1", 10⟩, [⟨"scheduler", 80, 100⟩, ⟨"loose-envify", 81, 101⟩]⟩
        ⟨[], [], 1⟩).1.isSome = true
      ∧ (storeDependencies (failAt 2)
          ⟨⟨"react", "18.3.1", 10⟩, [⟨"scheduler", 80, 100⟩, ⟨"loose-envify", 81, 101⟩]⟩
          ⟨[], [], 1⟩).2 = ⟨[], [], 1⟩)
    ∧ ((storeDependencies (failAt 5)
        ⟨⟨"react", "18.3.1", 30⟩, [⟨"scheduler", 80, 100⟩, ⟨"tslib", 1, 5⟩]⟩
        ⟨[⟨1, "react", "18.3.1", 10⟩],
         [⟨1, "scheduler", 80, 100⟩, ⟨1, "loose-envify", 81, 101⟩], 2⟩).1.isSome = true
      ∧ (storeDependencies (failAt 5)
          ⟨⟨"react", "18.3.1", 30⟩, [⟨"scheduler", 80, 100⟩, ⟨"tslib", 1, 5⟩]⟩
          ⟨[⟨1, "react", "18.3.1", 10⟩],
           [⟨1, "scheduler", 80, 100⟩, ⟨1, "loose-envify", 81, 101⟩], 2⟩).2
        = ⟨[⟨1, "react", "18.3.1", 10⟩],
           [⟨1, "scheduler", 80, 100⟩, ⟨1, "loose-envify", 81, 101⟩], 2⟩) :=
  ⟨⟨by decide,
    storeDependencies_atomic (failAt 2)
      ⟨⟨"react", "18.3.1", 10⟩, [⟨"scheduler", 80, 100⟩, ⟨"loose-envify", 81, 101⟩]⟩
      ⟨[], [], 1⟩ (by decide)⟩,
   ⟨by decide,
    storeDependencies_atomic (failAt 5)
      ⟨⟨"react", "18.3.1", 30⟩, [⟨"scheduler", 80, 100⟩, ⟨"tslib", 1, 5⟩]⟩
      ⟨[⟨1, "react", "18.3.1", 10⟩],
       [⟨1, "scheduler", 80, 100⟩, ⟨1, "loose-envify", 81, 101⟩], 2⟩ (by decide)⟩⟩

theorem projectExists_of_findProject (n v : String) (db : DB) (row : ProjRow)
    (h : findProject n v db = some row) : projectExists n v db = true := by
  unfold findProject at h
  unfold projectExists
  rw [List.any_eq_true]
  have hp := List.find?_some h
  exact ⟨row, List.mem_of_find?_eq_some h, hp⟩

/-- C8: a Reconcile call for an already-stored `(name, version)` whose
stored dependency set is diff-equal to the incoming one (empty diff on both
sides) succeeds, sets the project's `updatedAt` to the incoming record's
timestamp, and leaves the `dependency` table untouched: the result is
exactly the input database with that single project-row field replaced. -/
theorem reconcile_empty_diff (db : DB) (rec : ProjectDependencyRecord)
    (row : ProjRow)
    (hrow : findProject rec.project.name rec.project.version db = some row)
    (hdiff : DiffDependencies (currentDepsOf db row.id) rec.dependencies = ([], [])) :
    storeDependencies noFail rec db
      = (none, setProjectUpdatedAt db row.id rec.project.updatedAt)
    ∧ (storeDependencies noFail rec db).2.deps = db.deps := by
  have hex := projectExists_of_findProject _ _ _ _ hrow
  have hmain : storeDependencies noFail rec db
      = (none, setProjectUpdatedAt db row.id rec.project.updatedAt) := by
    simp [storeDependencies, insertOrIgnoreProject, hex, noFail, updateProject,
      hrow, hdiff]
  refine ⟨hmain, ?_⟩
  rw [hmain]
  rfl

/-- Witness for `reconcile_empty_diff`: re-reconciling a one-dependency
project with an identical incoming set only moves the timestamp from `10`
to `99`. -/
theorem reconcile_empty_diff_witness :
    findProject "p" "1.0.0" ⟨[⟨1, "p", "1.0.0", 10⟩], [⟨1, "a", 2, 5⟩], 2⟩
        = some ⟨1, "p", "1.0.0", 10⟩
    ∧ DiffDependencies
        (currentDepsOf ⟨[⟨1, "p", "1.0.0", 10⟩], [⟨1, "a", 2, 5⟩], 2⟩ 1)
        [⟨"a", 2, 5⟩] = ([], [])
    ∧ storeDependencies noFail ⟨⟨"p", "1.0.0", 99⟩, [⟨"a", 2, 5⟩]⟩
        ⟨[⟨1, "p", "1.0.0", 10⟩], [⟨1, "a", 2, 5⟩], 2⟩
      = (none, setProjectUpdatedAt
          ⟨[⟨1, "p", "1.0.0", 10⟩], [⟨1, "a", 2, 5⟩], 2⟩ 1 99) :=
  ⟨by decide, by decide,
    (reconcile_empty_diff ⟨[⟨1, "p", "1.0.0", 10⟩], [⟨1, "a", 2, 5⟩], 2⟩
      ⟨⟨"p", "1.0.0", 99⟩, [⟨"a", 2, 5⟩]⟩ ⟨1, "p", "1.0.0", 10⟩
      (by decide) (by decide)).1⟩

/-- C5: evaluation of `AddDependency` at a duplicate.  The project
`("pkg-add", "1.0.0")` already stores a dependency named `"left-pad"`;
adding it again makes the plain `INSERT` fail with a UNIQUE-constraint
statement error, so the call returns that wrapped SQL error — not
`ErrDependencyAlreadyExists`, whose `RowsAffected() == 0` branch is
unreachable — and leaves the stored state unchanged. -/
theorem addDependency_duplicate_eval :
    addDependency noFail "pkg-add" "1.0.0" ⟨"left-pad", 41/50, 111⟩
        ⟨[⟨1, "pkg-add", "1.0.0", 10⟩], [⟨1, "left-pad", 41/50, 100⟩], 2⟩
      = (some DMErr.sqlError,
         ⟨[⟨1, "pkg-add", "1.0.0", 10⟩], [⟨1, "left-pad", 41/50, 100⟩], 2⟩)
    ∧ DMErr.sqlError ≠ DMErr.dependencyAlreadyExists :=
  ⟨by decide, by decide⟩

/-- C10: `GetProjectsByDependency` surfaces an empty match set as
`ErrProjectNotFound` — under the schema's referential integrity it errors
exactly when no stored dependency row carries the requested name — while
`GetDependenciesByExactScore` returns an empty list with no error when no
stored score lies within `1e-9` of the requested one. -/
theorem query_notfound_semantics (db : DB) (n : String) (s : ℚ)
    (hfk : FKok db) :
    (getProjectsByDependency n db = .error .projectNotFound ↔
      ¬ ∃ r ∈ db.deps, r.name = n)
    ∧ ((¬ ∃ r ∈ db.deps, |r.score - s| ≤ eps) →
      getDependenciesByExactScore s db = .ok []) := by
  constructor
  · unfold getProjectsByDependency
    constructor
    · intro he hex
      rcases hex with ⟨r, hr, hname⟩
      rcases hfk r hr with ⟨p, hp, hpid⟩
      have hpin : p ∈ db.projects.filter fun p =>
          db.deps.any fun r => r.projectId = p.id && r.name = n := by
        refine List.mem_filter.mpr ⟨hp, List.any_eq_true.mpr ⟨r, hr, ?_⟩⟩
        rw [Bool.and_eq_true, decide_eq_true_eq, decide_eq_true_eq]
        exact ⟨hpid.symm, hname⟩
      have hne : ¬((db.projects.filter fun p =>
          db.deps.any fun r => r.projectId = p.id && r.name = n).isEmpty = true) := by
        intro hemp
        rw [List.isEmpty_iff] at hemp
        rw [hemp] at hpin
        cases hpin
      rw [if_neg hne] at he
      cases he
    · intro hnone
      have hlnil : (db.projects.filter fun p =>
          db.deps.any fun r => r.projectId = p.id && r.name = n) = [] := by
        rw [List.filter_eq_nil_iff]
        intro p _ hpcond
        rcases List.any_eq_true.mp hpcond with ⟨r, hr, hrc⟩
        rw [Bool.and_eq_true, decide_eq_true_eq, decide_eq_true_eq] at hrc
        exact hnone ⟨r, hr, hrc.2⟩
      rw [if_pos (by rw [hlnil]; rfl)]
  · intro h
    unfold getDependenciesByExactScore
    have hfnil : (db.deps.filter fun r =>
        decide (s - eps ≤ r.score) && decide (r.score ≤ s + eps)) = [] := by
      rw [List.filter_eq_nil_iff]
      intro r hr hcond
      rw [Bool.and_eq_true, decide_eq_true_eq, decide_eq_true_eq] at hcond
      refine h ⟨r, hr, ?_⟩
      rw [abs_sub_le_iff]
      constructor
      · linarith [hcond.2]
      · linarith [hcond.1]
    rw [hfnil]
    rfl

/-- Witness for `query_notfound_semantics` on a one-project database: the
name `"ghost"` matches no dependency row (so the lookup errors with
NotFound), and no stored score lies within the tolerance of `99`. -/
theorem query_notfound_semantics_witness :
    FKok ⟨[⟨1, "p", "1.0.0", 10⟩], [⟨1, "a", 2, 5⟩], 2⟩
    ∧ ((getProjectsByDependency "ghost"
          ⟨[⟨1, "p", "1.0.0", 10⟩], [⟨1, "a", 2, 5⟩], 2⟩
        = .error .projectNotFound ↔
        ¬ ∃ r ∈ (⟨[⟨1, "p", "1.0.0", 10⟩], [⟨1, "a", 2, 5⟩], 2⟩ : DB).deps,
          r.name = "ghost")
      ∧ ((¬ ∃ r ∈ (⟨[⟨1, "p", "1.0.0", 10⟩], [⟨1, "a", 2, 5⟩], 2⟩ : DB).deps,
          |r.score - (99 : ℚ)| ≤ eps) →
        getDependenciesByExactScore 99
          ⟨[⟨1, "p", "1.0.0", 10⟩], [⟨1, "a", 2, 5⟩], 2⟩ = .ok [])) :=
  ⟨by decide,
    query_notfound_semantics ⟨[⟨1, "p", "1.0.0", 10⟩], [⟨1, "a", 2, 5⟩], 2⟩
      "ghost" 99 (by decide)⟩

end Depsmanager
